import Mathlib

/-!
Verification of the heuristic column-mapping engine of the Lead-AI-Navigator
backend (`backend/ai_assistant.py`): `suggest_column_mapping`,
`_fallback_mapping`, `_standard_fields`, `_best_match`, `_infer_content`.

The Python code is embedded shallowly:
* strings are `String`, normalized column names are `List Char`,
* `pandas` sample data is a list of named columns whose cells are
  `Option String` (`none` models a NaN/null cell, `some s` models a cell
  whose `str()` rendering is `s`),
* `difflib.SequenceMatcher.ratio()` (Ratcliff-Obershelp) is implemented
  exactly: recursive longest-matching-block decomposition, ratio
  `2*M/T`; scores are kept as exact pairs `(2*M, T)` and compared by
  cross-multiplication (the float comparisons of the source never reach
  the rounding window of `0.82` for strings of realistic length),
* the external Gemini call of `suggest_column_mapping` is modelled by an
  `AIOutcome` parameter: the key may be absent, the call may raise, or it
  may produce an arbitrary column-to-value map (absent / null / non-string
  values collapse to `none`, which the source treats identically),
* Python `dict` construction (insertion order, overwrite on duplicate
  key) is modelled by `dictInsert` / `buildDict` over association lists.
-/

namespace LeadNav

set_option maxRecDepth 100000

/-- A pandas sample DataFrame: named columns of optional (str-rendered) cells. -/
def Sample : Type := List (String × List (Option String))

/-- Outcome of the optional external (Gemini) suggestion call in
`suggest_column_mapping`: no API key configured, any raised exception,
or a successfully parsed JSON map (values that are missing, null, or
non-string are `none`). -/
inductive AIOutcome where
  | noKey : AIOutcome
  | failure : AIOutcome
  | success : List (String × Option String) → AIOutcome

/-- `re.sub(r'[^a-z0-9]', '', s.lower())` of the source, for ASCII text. -/
def normalize (s : String) : List Char :=
  (s.data.map Char.toLower).filter
    (fun c => (decide ('a' ≤ c) && decide (c ≤ 'z')) ||
              (decide ('0' ≤ c) && decide (c ≤ '9')))

/-- Does `hay` start with `sub`? -/
def startsWithCh : List Char → List Char → Bool
  | _, [] => true
  | [], _ :: _ => false
  | h :: hs, s :: ss => h = s && startsWithCh hs ss

/-- Python `sub in hay` substring test: `sub` occurs at some position of
`hay` (the empty `sub` occurs everywhere, as in Python). -/
def hasSub : List Char → List Char → Bool
  | [], sub => startsWithCh [] sub
  | c :: t, sub => startsWithCh (c :: t) sub || hasSub t sub

/-! ## difflib.SequenceMatcher (Ratcliff-Obershelp), no junk -/

/-- The `b2j` index list of difflib for one element: positions `j` of `b`
with `b[j] = c`, restricted to `[blo, bhi)`, in increasing order. -/
def posIdx (b : List Char) (c : Char) (blo bhi : Nat) : List Nat :=
  (List.range b.length).filter
    (fun j => decide (b.getD j ' ' = c) && decide (blo ≤ j) && decide (j < bhi))

/-- Default-0 lookup in a `j2len` association table. -/
def lookupD (m : List (Nat × Nat)) (k : Nat) : Nat :=
  match m.find? (fun p => p.1 = k) with
  | some p => p.2
  | none => 0

/-- One row of `find_longest_match`: fold the candidate `j` positions for
`a[i]`, building the new `j2len` table and updating the running best
`(besti, bestj, bestsize)` exactly as the source does (`if k > bestsize`,
so the first maximal block in scan order wins).  `j2len.get(j-1, 0)` at
`j = 0` reads the absent key `-1`, hence yields 0. -/
def flmRowGo (i : Nat) (j2len : List (Nat × Nat)) :
    List Nat → List (Nat × Nat) → Nat × Nat × Nat → List (Nat × Nat) × (Nat × Nat × Nat)
  | [], acc, best => (acc, best)
  | j :: js, acc, best =>
    let k := (if j = 0 then 0 else lookupD j2len (j - 1)) + 1
    let best' := if k > best.2.2 then (i + 1 - k, j + 1 - k, k) else best
    flmRowGo i j2len js ((j, k) :: acc) best'

/-- The `for i in range(alo, ahi)` loop of `find_longest_match`; `fuel`
counts the remaining iterations (`ahi - i`). -/
def flmOuter (a b : List Char) (blo bhi : Nat) :
    Nat → Nat → List (Nat × Nat) → Nat × Nat × Nat → Nat × Nat × Nat
  | _, 0, _, best => best
  | i, fuel + 1, j2len, best =>
    let row := flmRowGo i j2len (posIdx b (a.getD i ' ') blo bhi) [] best
    flmOuter a b blo bhi (i + 1) fuel row.1 row.2

/-- `SequenceMatcher.find_longest_match(alo, ahi, blo, bhi)` with no junk
elements (difflib only activates autojunk for sequences of length at
least 200; every string this development evaluates is far shorter).
The trailing junk-extension loops of the source are no-ops without junk,
because the `j2len` recurrence already yields diagonally maximal blocks
inside the window. -/
def findLongestMatchB (a b : List Char) (alo ahi blo bhi : Nat) : Nat × Nat × Nat :=
  flmOuter a b blo bhi alo (ahi - alo) [] (alo, blo, 0)

/-- Total size of all matching blocks (`sum(size for ... in
get_matching_blocks())`): recursive decomposition around the longest
match, exactly as difflib's queue does.  `fuel` bounds the recursion
depth; each recursive call strictly shrinks `ahi - alo`. -/
def matchSizes (a b : List Char) : Nat → Nat → Nat → Nat → Nat → Nat
  | 0, _, _, _, _ => 0
  | fuel + 1, alo, ahi, blo, bhi =>
    let r := findLongestMatchB a b alo ahi blo bhi
    let i := r.1; let j := r.2.1; let k := r.2.2
    if k = 0 then 0
    else matchSizes a b fuel alo i blo j + k + matchSizes a b fuel (i + k) ahi (j + k) bhi

/-- `M` in `ratio() = 2*M/T`: the number of matched characters. -/
def matchTotal (a b : List Char) : Nat :=
  matchSizes a b (a.length + b.length + 1) 0 a.length 0 b.length

/-- `SequenceMatcher(None, a, b).ratio()` as an exact rational, the pair
`(2*M, T)`; difflib returns `1.0` when `T = 0`. -/
def scoreOf (a b : List Char) : Nat × Nat :=
  let t := a.length + b.length
  if t = 0 then (1, 1) else (2 * matchTotal a b, t)

/-- Strict comparison of two scores, `p.1/p.2 > q.1/q.2`, by
cross-multiplication.  This decides the source's float comparisons
(`score > 0.82` with `0.82` written as `41/50`, and `score > best_score`)
exactly: for the short strings involved the rationals never fall inside a
double-rounding window. -/
def ratGt (p q : Nat × Nat) : Bool := decide (p.1 * q.2 > q.1 * p.2)

/-! ## Field taxonomy (`_standard_fields`) -/

/-- The `{"required": ..., "optional": ...}` dictionaries of `_standard_fields`. -/
structure StdFields where
  required : List String
  optional : List String

/-- The `buyers` taxonomy of `_standard_fields`, verbatim. -/
def buyersFields : StdFields :=
  { required := ["email", "name", "order_date", "revenue"]
    optional := ["product", "quantity", "customer_id", "phone", "address", "city",
                 "state", "country", "zip_code", "payment_method", "order_id",
                 "status", "discount", "tax", "shipping_cost", "net_worth",
                 "income", "age_range", "gender", "company_name",
                 "company_revenue", "job_title", "department", "seniority_level"] }

/-- The `visitors` taxonomy of `_standard_fields`, verbatim. -/
def visitorsFields : StdFields :=
  { required := ["email", "visit_date"]
    optional := ["source", "campaign", "device", "page_url", "session_id",
                 "referrer", "utm_source", "utm_medium", "utm_campaign",
                 "browser", "os", "ip_address", "location", "duration",
                 "event_type", "pixel_id", "uuid", "user_agent"] }

/-- `_standard_fields(file_type)`: `buyers if file_type == "buyers" else visitors`. -/
def standard_fields (fileType : String) : StdFields :=
  if fileType = "buyers" then buyersFields else visitorsFields

/-- `std["required"] + std["optional"]` for a category. -/
def allFields (fileType : String) : List String :=
  (standard_fields fileType).required ++ (standard_fields fileType).optional

/-! ## Content inference (`_infer_content`) -/

/-- One character of `[-.\s]` (ASCII `\s`). -/
def isSepCh (c : Char) : Bool :=
  c = '-' || c = '.' || c = ' ' || c = '\t' || c = '\n' || c = '\r' ||
  c = '\x0b' || c = '\x0c'

/-- Consume exactly `n` digits (`\d{n}`). -/
def takeDigits : Nat → List Char → Option (List Char)
  | 0, cs => some cs
  | n + 1, c :: cs => if c.isDigit then takeDigits n cs else none
  | _ + 1, [] => none

/-- The two continuations of an optional separator `[-.\s]?` (with, without),
in the backtracking order of `re`. -/
def optSepCont (cs : List Char) : List (List Char) :=
  match cs with
  | c :: rest => if isSepCh c then [rest, cs] else [cs]
  | [] => [cs]

/-- `\d{3}[-.\s]?\d{3}[-.\s]?\d{4}` anchored at the head of `cs`. -/
def phoneGroupAt (cs : List Char) : Bool :=
  match takeDigits 3 cs with
  | none => false
  | some r1 =>
    (optSepCont r1).any (fun r2 =>
       match takeDigits 3 r2 with
       | none => false
       | some r3 => (optSepCont r3).any (fun r4 => (takeDigits 4 r4).isSome))

/-- `\+\d` anchored at the head of `cs`. -/
def plusDigitAt : List Char → Bool
  | '+' :: c :: _ => c.isDigit
  | _ => false

/-- `re.search(r"\+\d|\d{3}[-.\s]?\d{3}[-.\s]?\d{4}", text)` as a Bool. -/
def phoneRe : List Char → Bool
  | [] => false
  | c :: cs => plusDigitAt (c :: cs) || phoneGroupAt (c :: cs) || phoneRe cs

/-- `\d{4}-\d{2}-\d{2}` or `\d{2}/\d{2}/\d{4}` anchored at the head. -/
def dateAt (cs : List Char) : Bool :=
  (match takeDigits 4 cs with
   | some ('-' :: r1) =>
     (match takeDigits 2 r1 with
      | some ('-' :: r2) => (takeDigits 2 r2).isSome
      | _ => false)
   | _ => false) ||
  (match takeDigits 2 cs with
   | some ('/' :: r1) =>
     (match takeDigits 2 r1 with
      | some ('/' :: r2) => (takeDigits 4 r2).isSome
      | _ => false)
   | _ => false)

/-- `re.search(r"\d{4}-\d{2}-\d{2}|\d{2}/\d{2}/\d{4}", text)` as a Bool. -/
def dateRe : List Char → Bool
  | [] => false
  | c :: cs => dateAt (c :: cs) || dateRe cs

/-- `re.search(r"\$|\d+k|\d+m", text)`: a dollar sign, or one-or-more digits
directly followed by `k` or `m` (equivalently, a digit adjacent to the
letter). -/
def moneyRe : List Char → Bool
  | [] => false
  | [c] => c = '$'
  | c1 :: c2 :: cs =>
    c1 = '$' || (c1.isDigit && (c2 = 'k' || c2 = 'm')) || moneyRe (c2 :: cs)

/-- `" ".join(vals)` over already-rendered cell strings, as characters. -/
def joinSpace : List String → List Char
  | [] => []
  | [v] => v.data
  | v :: w :: vs => v.data ++ ' ' :: joinSpace (w :: vs)

/-- `_infer_content(series, fields)`: first five non-null values, joined and
lowercased, then the ordered pattern rules of the source.  Note that the
date rule falls back to `"visit_date"` and the http rule to `"referrer"`
without membership checks, exactly as in the source. -/
def infer_content (series : List (Option String)) (fields : List String) : Option String :=
  let vals := (series.filterMap id).take 5
  if vals = [] then none
  else
    let text := (joinSpace vals).map Char.toLower
    if hasSub text ['@'] ∧ "email" ∈ fields then some "email"
    else if phoneRe text ∧ "phone" ∈ fields then some "phone"
    else if dateRe text then
      some (if "order_date" ∈ fields then "order_date" else "visit_date")
    else if moneyRe text ∧ "revenue" ∈ fields then some "revenue"
    else if hasSub text ['h', 't', 't', 'p'] ∨ hasSub text ['w', 'w', 'w', '.'] then
      some (if "page_url" ∈ fields then "page_url" else "referrer")
    else none

/-! ## The matcher (`_best_match`) -/

/-- The fuzzy-similarity loop of `_best_match` (step 1): per candidate field
`f`, compute `score = ratio(clean, f_clean)`; update the running
`(best_score, best)` on `score > best_score`, then return `f` immediately
on `score > 0.82`.  `Sum.inl f` is the early threshold return, `Sum.inr b`
the final running best after the loop. -/
def fuzzyPass (clean : List Char) : List String → Nat × Nat → String → Sum String String
  | [], _, best => Sum.inr best
  | f :: rest, bs, best =>
    let s := scoreOf clean (normalize f)
    let bb := if ratGt s bs then (s, f) else (bs, best)
    if ratGt s (41, 50) then Sum.inl f
    else fuzzyPass clean rest bb.1 bb.2

/-- The keyword table `boosts` of `_best_match`, in source (insertion)
order. -/
def boosts : List (String × List String) :=
  [("email", ["email", "mail", "sha256", "hem"]),
   ("phone", ["phone", "mobile", "cell", "number", "direct", "wireless", "landline"]),
   ("name", ["name", "first", "last", "full"]),
   ("address", ["address", "street", "addr"]),
   ("city", ["city", "town"]),
   ("state", ["state", "province"]),
   ("zip_code", ["zip", "postal", "postcode"]),
   ("revenue", ["revenue", "worth", "income", "amount", "price"]),
   ("company_name", ["company", "business", "org"]),
   ("job_title", ["job", "title", "role", "position"]),
   ("age_range", ["age", "dob"]),
   ("gender", ["gender", "sex"]),
   ("net_worth", ["net", "worth"]),
   ("income", ["income", "salary"])]

/-- Step 3 of `_best_match`: first table entry whose field is a candidate
and one of whose keywords is a substring of the normalized name. -/
def keywordPass (clean : List Char) (fields : List String) : Option String :=
  (boosts.find? (fun p => decide (p.1 ∈ fields) && p.2.any (fun k => hasSub clean k.data))).map
    (fun p => p.1)

/-- `sample is not None and col in sample.columns` followed by
`sample[col]`: the first column of that name, if any. -/
def sampleCol (sample : Option Sample) (col : String) : Option (List (Option String)) :=
  match sample with
  | none => none
  | some s => ((s : List (String × List (Option String))).find? (fun p => p.1 = col)).map
      (fun p => p.2)

/-- `_best_match(col, fields, sample)`: fuzzy pass with 0.82 early return,
then content inference, then keyword boosts, then the running fuzzy best.
(The source's `fields[0]` initializer raises on an empty candidate list;
`List.headD fields ""` takes its place, and every theorem below only uses
non-empty candidate lists.) -/
def best_match (col : String) (fields : List String) (sample : Option Sample) : String :=
  let clean := normalize col
  match fuzzyPass clean fields (0, 1) (fields.headD "") with
  | Sum.inl f => f
  | Sum.inr best =>
    match (sampleCol sample col).bind (fun series => infer_content series fields) with
    | some f => f
    | none =>
      match keywordPass clean fields with
      | some f => f
      | none => best

/-! ## Python dict construction -/

/-- One Python `d[k] = v`: overwrite in place if `k` is present (keys keep
their original position), else append. -/
def dictInsert (d : List (String × String)) (k v : String) : List (String × String) :=
  if (d.find? (fun p => p.1 = k)).isSome then
    d.map (fun p => if p.1 = k then (k, v) else p)
  else d ++ [(k, v)]

/-- `{c: f c for c in columns}` (also the `final = {}; for col in columns:
final[col] = ...` loop): fold of `dictInsert`. -/
def buildDict (columns : List String) (f : String → String) : List (String × String) :=
  columns.foldl (fun d c => dictInsert d c (f c)) []

/-- The key list of a dict. -/
def dictKeys (d : List (String × String)) : List String := d.map (fun p => p.1)

/-! ## Orchestrator (`suggest_column_mapping`, `_fallback_mapping`) -/

/-- `_fallback_mapping(columns, file_type, sample)`. -/
def fallback_mapping (columns : List String) (fileType : String)
    (sample : Option Sample) : List (String × String) :=
  buildDict columns (fun col => best_match col (allFields fileType) sample)

/-- `ai_map.get(col)` over the parsed suggestion map. -/
def aiGet (m : List (String × Option String)) (col : String) : Option String :=
  match m.find? (fun p => p.1 = col) with
  | some p => p.2
  | none => none

/-- The loop body of `suggest_column_mapping`'s validation step:
`final[col] = field if field in all_fields else _best_match(col, all_fields, sample_data)`
where `field = ai_map.get(col)`. -/
def aiResolve (aiMap : List (String × Option String)) (fileType : String)
    (sample : Option Sample) (col : String) : String :=
  match aiGet aiMap col with
  | some f =>
    if f ∈ allFields fileType then f
    else best_match col (allFields fileType) sample
  | none => best_match col (allFields fileType) sample

/-- `suggest_column_mapping(columns, file_type, sample)`: without an API key
or on any exception, `_fallback_mapping`; on a parsed suggestion, accept a
column's suggested field only if it is in `required + optional`, otherwise
re-resolve that column with `_best_match`. -/
def suggest_column_mapping (columns : List String) (fileType : String)
    (sample : Option Sample) (ai : AIOutcome) : List (String × String) :=
  match ai with
  | AIOutcome.noKey => fallback_mapping columns fileType sample
  | AIOutcome.failure => fallback_mapping columns fileType sample
  | AIOutcome.success aiMap => buildDict columns (aiResolve aiMap fileType sample)

/-! ## Helper lemmas -/

/-- An early (threshold) return of the fuzzy loop is one of the candidates. -/
theorem fuzzyPass_inl_mem {clean : List Char} :
    ∀ {fs : List String} {bs : Nat × Nat} {b f : String},
      fuzzyPass clean fs bs b = Sum.inl f → f ∈ fs := by
  intro fs
  induction fs with
  | nil => intro bs b f h; simp [fuzzyPass] at h
  | cons g gs ih =>
    intro bs b f h
    simp only [fuzzyPass] at h
    split at h
    · rw [Sum.inl.injEq] at h
      exact h ▸ List.mem_cons_self g gs
    · exact List.mem_cons_of_mem g (ih h)

/-- The final running best of the fuzzy loop is a candidate or the initial
value. -/
theorem fuzzyPass_inr_mem {clean : List Char} :
    ∀ {fs : List String} {bs : Nat × Nat} {b bf : String},
      fuzzyPass clean fs bs b = Sum.inr bf → bf ∈ fs ∨ bf = b := by
  intro fs
  induction fs with
  | nil =>
    intro bs b bf h
    simp only [fuzzyPass, Sum.inr.injEq] at h
    exact Or.inr h.symm
  | cons g gs ih =>
    intro bs b bf h
    simp only [fuzzyPass] at h
    split at h
    · exact absurd h (by simp)
    · rcases ih h with hm | hm
      · exact Or.inl (List.mem_cons_of_mem g hm)
      · split at hm
        · exact Or.inl (hm ▸ List.mem_cons_self g gs)
        · exact Or.inr hm

/-- Any field produced by `_infer_content` is a candidate, except for the
unguarded fallbacks of the date rule (`"visit_date"`) and of the url rule
(`"referrer"`). -/
theorem infer_content_cases {series : List (Option String)} {fields : List String}
    {f : String} (h : infer_content series fields = some f) :
    f ∈ fields ∨ f = "visit_date" ∨ f = "referrer" := by
  simp only [infer_content] at h
  split_ifs at h <;> (rw [Option.some.injEq] at h; subst h; tauto)

/-- A keyword-pass result is a candidate. -/
theorem keywordPass_mem {clean : List Char} {fields : List String} {f : String}
    (h : keywordPass clean fields = some f) : f ∈ fields := by
  simp only [keywordPass] at h
  cases hf : boosts.find?
      (fun p => decide (p.1 ∈ fields) && p.2.any (fun k => hasSub clean k.data)) with
  | none => rw [hf] at h; simp at h
  | some p =>
    rw [hf] at h
    simp only [Option.map_some', Option.some.injEq] at h
    have hp := List.find?_some hf
    simp only [Bool.and_eq_true, decide_eq_true_eq] at hp
    exact h ▸ hp.1

/-- `_best_match` always returns a candidate field, except that the
unguarded content-rule fallbacks may additionally produce `"visit_date"`
or `"referrer"`. -/
theorem best_match_mem {col : String} {fields : List String} {sample : Option Sample}
    (hne : fields ≠ []) :
    best_match col fields sample ∈ fields ∨
      best_match col fields sample = "visit_date" ∨
      best_match col fields sample = "referrer" := by
  simp only [best_match]
  cases hfz : fuzzyPass (normalize col) fields (0, 1) (fields.headD "") with
  | inl f => exact Or.inl (fuzzyPass_inl_mem hfz)
  | inr b =>
    cases hic : (sampleCol sample col).bind (fun series => infer_content series fields) with
    | some f =>
      obtain ⟨series, hs, hi⟩ := Option.bind_eq_some.mp hic
      exact infer_content_cases hi
    | none =>
      cases hkw : keywordPass (normalize col) fields with
      | some f => exact Or.inl (keywordPass_mem hkw)
      | none =>
        rcases fuzzyPass_inr_mem hfz with hb | hb
        · exact Or.inl hb
        · subst hb
          left
          cases fields with
          | nil => exact absurd rfl hne
          | cons a l => exact List.mem_cons_self a l

/-- Every field of either taxonomy is a non-empty string. -/
theorem allFields_ne_empty (ft : String) : ∀ f ∈ allFields ft, f ≠ "" := by
  intro f hf
  unfold allFields standard_fields at hf
  split at hf
  · revert f
    decide
  · revert f
    decide

/-- Both taxonomies are non-empty candidate lists. -/
theorem allFields_ne_nil (ft : String) : allFields ft ≠ [] := by
  unfold allFields standard_fields
  split <;> decide

/-- On a real taxonomy, `_best_match` never produces the empty string. -/
theorem best_match_ne_empty (col : String) (ft : String) (sample : Option Sample) :
    best_match col (allFields ft) sample ≠ "" := by
  rcases @best_match_mem col (allFields ft) sample (allFields_ne_nil ft) with h | h | h
  · exact allFields_ne_empty ft _ h
  · rw [h]; decide
  · rw [h]; decide

/-- Membership in a dict after one insert. -/
theorem dictInsert_mem {d : List (String × String)} {k v : String} {p : String × String}
    (h : p ∈ dictInsert d k v) : p ∈ d ∨ p = (k, v) := by
  unfold dictInsert at h
  split at h
  · obtain ⟨q, hq, hpq⟩ := List.mem_map.mp h
    by_cases hk : q.1 = k
    · right
      rw [← hpq, if_pos hk]
    · left
      rwa [← hpq, if_neg hk]
  · rcases List.mem_append.mp h with h1 | h1
    · exact Or.inl h1
    · right
      simpa using h1

/-- The keys after one insert are the old keys plus the inserted key. -/
theorem mem_dictKeys_dictInsert {d : List (String × String)} {k v c : String} :
    c ∈ dictKeys (dictInsert d k v) ↔ c ∈ dictKeys d ∨ c = k := by
  constructor
  · intro h
    obtain ⟨p, hp, hpc⟩ := List.mem_map.mp h
    rcases dictInsert_mem hp with h1 | h1
    · exact Or.inl (List.mem_map.mpr ⟨p, h1, hpc⟩)
    · right
      rw [← hpc, h1]
  · intro h
    unfold dictInsert
    rcases h with h | h
    · obtain ⟨q, hq, hqc⟩ := List.mem_map.mp h
      split
      · refine List.mem_map.mpr ⟨if q.1 = k then (k, v) else q, List.mem_map.mpr ⟨q, hq, rfl⟩, ?_⟩
        by_cases hk : q.1 = k
        · rw [if_pos hk]
          rw [← hqc, hk]
        · rw [if_neg hk]
          exact hqc
      · exact List.mem_map.mpr ⟨q, List.mem_append.mpr (Or.inl hq), hqc⟩
    · subst h
      split
      · rename_i hs
        obtain ⟨q, hq, hqk⟩ := List.find?_isSome.mp hs
        simp only [decide_eq_true_eq] at hqk
        refine List.mem_map.mpr ⟨(c, v), ?_, rfl⟩
        refine List.mem_map.mpr ⟨q, hq, ?_⟩
        rw [if_pos hqk]
      · exact List.mem_map.mpr ⟨(c, v), List.mem_append.mpr (Or.inr (by simp)), rfl⟩

/-- Generalized invariant of the dict-building fold: every pair either was
already present or has a key from `cols` and the value computed by `f`. -/
theorem buildDict_go_mem {f : String → String} :
    ∀ (cols : List String) (d : List (String × String)) (p : String × String),
      p ∈ List.foldl (fun d c => dictInsert d c (f c)) d cols →
      p ∈ d ∨ (p.1 ∈ cols ∧ p.2 = f p.1) := by
  intro cols
  induction cols with
  | nil => intro d p h; exact Or.inl h
  | cons c cs ih =>
    intro d p h
    rw [List.foldl_cons] at h
    rcases ih (dictInsert d c (f c)) p h with h1 | h1
    · rcases dictInsert_mem h1 with h2 | h2
      · exact Or.inl h2
      · right
        rw [h2]
        exact ⟨List.mem_cons_self _ _, rfl⟩
    · exact Or.inr ⟨List.mem_cons_of_mem _ h1.1, h1.2⟩

/-- Every pair of a built dict has a key from `cols` and the computed value. -/
theorem buildDict_mem {cols : List String} {f : String → String} {p : String × String}
    (h : p ∈ buildDict cols f) : p.1 ∈ cols ∧ p.2 = f p.1 :=
  (buildDict_go_mem cols [] p h).resolve_left (by simp)

/-- Keys accumulate through the dict-building fold. -/
theorem buildDict_keys_go {f : String → String} :
    ∀ (cols : List String) (d : List (String × String)) (c : String),
      c ∈ dictKeys d ∨ c ∈ cols →
      c ∈ dictKeys (List.foldl (fun d x => dictInsert d x (f x)) d cols) := by
  intro cols
  induction cols with
  | nil =>
    intro d c h
    exact h.resolve_right (by simp)
  | cons x xs ih =>
    intro d c h
    rw [List.foldl_cons]
    apply ih
    rcases h with h | h
    · exact Or.inl (mem_dictKeys_dictInsert.mpr (Or.inl h))
    · rcases List.mem_cons.mp h with h | h
      · exact Or.inl (mem_dictKeys_dictInsert.mpr (Or.inr h))
      · exact Or.inr h

/-- The key set of a built dict is exactly the column set. -/
theorem mem_dictKeys_buildDict {cols : List String} {f : String → String} {c : String} :
    c ∈ dictKeys (buildDict cols f) ↔ c ∈ cols := by
  constructor
  · intro h
    obtain ⟨p, hp, hpc⟩ := List.mem_map.mp h
    rw [← hpc]
    exact (buildDict_mem hp).1
  · intro h
    exact buildDict_keys_go cols [] c (Or.inr h)

/-- Inserting a fresh key appends. -/
theorem dictInsert_of_not_mem {d : List (String × String)} {k v : String}
    (h : k ∉ dictKeys d) : dictInsert d k v = d ++ [(k, v)] := by
  unfold dictInsert
  rw [if_neg]
  intro hs
  obtain ⟨q, hq, hqk⟩ := List.find?_isSome.mp hs
  simp only [decide_eq_true_eq] at hqk
  exact h (List.mem_map.mpr ⟨q, hq, hqk⟩)

/-- Folding pairwise-distinct fresh columns grows the dict by one per column. -/
theorem buildDict_length_go {f : String → String} :
    ∀ (cols : List String) (d : List (String × String)),
      cols.Nodup → (∀ c ∈ cols, c ∉ dictKeys d) →
      (List.foldl (fun d x => dictInsert d x (f x)) d cols).length = d.length + cols.length := by
  intro cols
  induction cols with
  | nil => intro d _ _; simp
  | cons x xs ih =>
    intro d hnd hfresh
    rw [List.foldl_cons, dictInsert_of_not_mem (hfresh x (List.mem_cons_self x xs))]
    have hlen := ih (d ++ [(x, f x)]) (List.nodup_cons.mp hnd).2 ?_
    · rw [hlen]
      simp only [List.length_append, List.length_cons, List.length_nil]
      omega
    · intro c hc hmem
      rcases List.mem_map.mp hmem with ⟨q, hq, hqc⟩
      rcases List.mem_append.mp hq with hq1 | hq1
      · exact hfresh c (List.mem_cons_of_mem x hc) (List.mem_map.mpr ⟨q, hq1, hqc⟩)
      · have hqx : q = (x, f x) := by simpa using hq1
        have : c = x := by rw [← hqc, hqx]
        exact (List.nodup_cons.mp hnd).1 (this ▸ hc)

/-- The dict built over no columns is empty. -/
theorem buildDict_nil {f : String → String} : buildDict [] f = [] := rfl

/-- The per-column value of the validated AI path is never empty. -/
theorem aiResolve_ne_empty (aiMap : List (String × Option String)) (fileType : String)
    (sample : Option Sample) (col : String) : aiResolve aiMap fileType sample col ≠ "" := by
  unfold aiResolve
  cases hf : aiGet aiMap col with
  | none => exact best_match_ne_empty col fileType sample
  | some f =>
    show (if f ∈ allFields fileType then f
          else best_match col (allFields fileType) sample) ≠ ""
    by_cases hmem : f ∈ allFields fileType
    · rw [if_pos hmem]
      exact allFields_ne_empty fileType f hmem
    · rw [if_neg hmem]
      exact best_match_ne_empty col fileType sample

/-- Whatever the external collaborator did, `suggest_column_mapping` is a
dict built over the input columns from some per-column resolver. -/
theorem suggest_eq_buildDict (columns : List String) (fileType : String)
    (sample : Option Sample) (ai : AIOutcome) :
    ∃ g : String → String,
      suggest_column_mapping columns fileType sample ai = buildDict columns g ∧
        ∀ c, g c ≠ "" := by
  cases ai with
  | noKey => exact ⟨_, rfl, fun c => best_match_ne_empty c fileType sample⟩
  | failure => exact ⟨_, rfl, fun c => best_match_ne_empty c fileType sample⟩
  | success aiMap => exact ⟨_, rfl, fun c => aiResolve_ne_empty aiMap fileType sample c⟩

/-! ## The claims -/

/-- Claim C1: for every list of columns and valid category (and any sample
data and any behavior of the external suggestion), `suggest_column_mapping`
returns a mapping whose key set exactly equals the set of input columns and
whose every value is a non-empty string; for the empty column list it
returns the empty mapping. -/
theorem C1_mapping_total (columns : List String) (fileType : String)
    (sample : Option Sample) (ai : AIOutcome)
    (hcat : fileType = "buyers" ∨ fileType = "visitors") :
    (∀ c, c ∈ dictKeys (suggest_column_mapping columns fileType sample ai) ↔ c ∈ columns) ∧
    (∀ p ∈ suggest_column_mapping columns fileType sample ai, p.2 ≠ "") ∧
    (columns = [] → suggest_column_mapping columns fileType sample ai = []) := by
  obtain ⟨g, hge, hgne⟩ := suggest_eq_buildDict columns fileType sample ai
  rw [hge]
  refine ⟨fun c => mem_dictKeys_buildDict, fun p hp => ?_, fun hnil => ?_⟩
  · rw [(buildDict_mem hp).2]
    exact hgne p.1
  · subst hnil
    exact buildDict_nil

/-- Witness for C1 at a concrete input. -/
theorem C1_mapping_total_witness :
    (∀ c, c ∈ dictKeys (suggest_column_mapping ["Email Address"] "buyers" none AIOutcome.noKey)
        ↔ c ∈ ["Email Address"]) ∧
    (∀ p ∈ suggest_column_mapping ["Email Address"] "buyers" none AIOutcome.noKey, p.2 ≠ "") ∧
    ((["Email Address"] : List String) = [] →
      suggest_column_mapping ["Email Address"] "buyers" none AIOutcome.noKey = []) :=
  C1_mapping_total ["Email Address"] "buyers" none AIOutcome.noKey (Or.inl rfl)

/-- Claim C2 counter-evidence: with the buyers category, a column whose
samples contain a URL is mapped to `"referrer"`, a field of neither the
buyers required nor the buyers optional list, because the url rule of
`_infer_content` falls back to `"referrer"` without a membership check.
This contradicts the source's own docstring ("Only valid standard
fields"). -/
theorem C2_nontaxonomy_value :
    suggest_column_mapping ["xyz"] "buyers" (some [("xyz", [some "http://foo"])])
        AIOutcome.noKey = [("xyz", "referrer")] ∧
    ("referrer" : String) ∉ allFields "buyers" := by
  exact ⟨by decide, by decide⟩

/-- Claim C3 counter-evidence: `_best_match` with the well-formed buyers
candidate list returns `"referrer"`, which is not a member of the
candidate list. -/
theorem C3_result_not_candidate :
    best_match "xyz" (allFields "buyers") (some [("xyz", [some "http://foo"])])
      = "referrer" ∧
    ("referrer" : String) ∉ allFields "buyers" := by
  exact ⟨by decide, by decide⟩

/-- Claim C4 counterexample: called with a category that is neither
`"buyers"` nor `"visitors"`, the taxonomy lookup does not fail: it
returns the visitors taxonomy. -/
theorem C4_counterexample :
    standard_fields "bogus" = visitorsFields ∧
    ("bogus" : String) ≠ "buyers" ∧ ("bogus" : String) ≠ "visitors" := by
  exact ⟨rfl, by decide, by decide⟩

/-- Claim C4 amended: `_standard_fields` never fails; every category other
than `"buyers"` (valid or not) receives the visitors taxonomy. -/
theorem C4_amended_nonbuyers_get_visitors (c : String) (h : c ≠ "buyers") :
    standard_fields c = visitorsFields := by
  unfold standard_fields
  rw [if_neg h]

/-- Witness for the amended C4. -/
theorem C4_amended_nonbuyers_get_visitors_witness :
    standard_fields "unknown_category" = visitorsFields :=
  C4_amended_nonbuyers_get_visitors "unknown_category" (by decide)

/-- Claim C5 counter-evidence: an invalid external suggestion
(`"not_a_real_field"`) is indeed discarded and re-resolved through
`_best_match` without any error — but for the buyers category and a
URL-sample column the re-resolution itself yields `"referrer"`, which is
not in the buyers taxonomy, so the output still contains a non-taxonomy
field name. -/
theorem C5_fallback_still_nontaxonomy :
    suggest_column_mapping ["xyz"] "buyers" (some [("xyz", [some "http://foo"])])
        (AIOutcome.success [("xyz", some "not_a_real_field")])
      = [("xyz", "referrer")] ∧
    ("not_a_real_field" : String) ∉ allFields "buyers" ∧
    ("referrer" : String) ∉ allFields "buyers" := by
  exact ⟨by decide, by decide, by decide⟩

/-- Claim C6 counterexample: Python-dict semantics deduplicate repeated
column names, so a duplicated input column yields a mapping smaller than
the input column count. -/
theorem C6_counterexample :
    (suggest_column_mapping ["a", "a"] "buyers" none AIOutcome.noKey).length = 1 ∧
    (["a", "a"] : List String).length = 2 := by
  exact ⟨by decide, by decide⟩

/-- Claim C6 amended: for pairwise-distinct input columns (the normal shape
of a parsed header row) the mapping size equals the input column count; no
column is dropped (see C1 for the key-set equality). -/
theorem C6_size_of_nodup (columns : List String) (fileType : String)
    (sample : Option Sample) (ai : AIOutcome)
    (hcat : fileType = "buyers" ∨ fileType = "visitors")
    (hnd : columns.Nodup) :
    (suggest_column_mapping columns fileType sample ai).length = columns.length := by
  obtain ⟨g, hge, -⟩ := suggest_eq_buildDict columns fileType sample ai
  rw [hge]
  have hlen := buildDict_length_go (f := g) columns [] hnd
    (by intro c hc; simp [dictKeys])
  simpa using hlen

/-- Witness for the amended C6. -/
theorem C6_size_of_nodup_witness :
    (suggest_column_mapping ["a", "b"] "visitors" none AIOutcome.failure).length
      = (["a", "b"] : List String).length :=
  C6_size_of_nodup ["a", "b"] "visitors" none AIOutcome.failure (Or.inr rfl) (by decide)

/-- A character of the text is found by the single-character substring
test. -/
theorem hasSub_single {c : Char} : ∀ {cs : List Char}, c ∈ cs → hasSub cs [c] = true := by
  intro cs
  induction cs with
  | nil => intro h; exact absurd h (List.not_mem_nil c)
  | cons a t ih =>
    intro h
    simp only [hasSub, Bool.or_eq_true]
    rcases List.mem_cons.mp h with h | h
    · left
      subst h
      simp [startsWithCh]
    · right
      exact ih h

/-- A character of the first joined value occurs in the joined text. -/
theorem mem_joinSpace_head {v : String} {l : List String} {c : Char}
    (h : c ∈ v.data) : c ∈ joinSpace (v :: l) := by
  cases l with
  | nil => exact h
  | cons w vs =>
    simp only [joinSpace]
    exact List.mem_append.mpr (Or.inl h)

/-- If the first sample cell is a non-null value containing `'@'` and
`"email"` is a candidate, `_infer_content` returns `"email"` (the `'@'`
rule is the first pattern rule). -/
theorem infer_content_email {fields : List String} (v : String)
    (rest : List (Option String)) (hat : '@' ∈ v.data) (hemail : "email" ∈ fields) :
    infer_content (some v :: rest) fields = some "email" := by
  have hvals : ((some v :: rest).filterMap id).take 5
      = v :: (rest.filterMap id).take 4 := rfl
  simp only [infer_content, hvals]
  rw [if_neg (List.cons_ne_nil v _)]
  rw [if_pos]
  constructor
  · exact hasSub_single (List.mem_map.mpr ⟨'@', mem_joinSpace_head hat, by decide⟩)
  · exact hemail

/-- Claim C7: a column named `contact_info` whose sample values all read
`user@domain.com` maps to `email` under either taxonomy: no fuzzy score
crosses 0.82 (the loop finishes with a running best), and the `'@'`
content rule fires before the keyword pass. -/
theorem C7_content_over_weak_name (n : Nat) (hn : 0 < n) (fields : List String)
    (hf : fields = allFields "buyers" ∨ fields = allFields "visitors") :
    best_match "contact_info" fields
      (some [("contact_info", List.replicate n (some "user@domain.com"))]) = "email" := by
  obtain ⟨m, rfl⟩ : ∃ m, n = m + 1 := ⟨n - 1, by omega⟩
  have hrep : List.replicate (m + 1) (some "user@domain.com")
      = some "user@domain.com" :: List.replicate m (some "user@domain.com") :=
    List.replicate_succ _ _
  have hinf : infer_content (List.replicate (m + 1) (some "user@domain.com")) fields
      = some "email" := by
    rw [hrep]
    exact infer_content_email _ _ (by decide)
      (by rcases hf with h | h <;> subst h <;> decide)
  have hser : sampleCol
      (some [("contact_info", List.replicate (m + 1) (some "user@domain.com"))])
      "contact_info" = some (List.replicate (m + 1) (some "user@domain.com")) := rfl
  rcases hf with h | h <;> subst h
  · have hfz : fuzzyPass (normalize "contact_info") (allFields "buyers") (0, 1)
        ((allFields "buyers").headD "") = Sum.inr "country" := by decide
    simp only [best_match, hfz, hser, Option.some_bind, hinf]
  · have hfz : fuzzyPass (normalize "contact_info") (allFields "visitors") (0, 1)
        ((allFields "visitors").headD "") = Sum.inr "location" := by decide
    simp only [best_match, hfz, hser, Option.some_bind, hinf]

/-- Witness for C7. -/
theorem C7_content_over_weak_name_witness :
    best_match "contact_info" (allFields "buyers")
      (some [("contact_info", List.replicate 3 (some "user@domain.com"))]) = "email" :=
  C7_content_over_weak_name 3 (by decide) (allFields "buyers") (Or.inl rfl)

/-- Claim C8 counterexample: with the visitors taxonomy as candidate list,
`"phone"` is not a candidate at all (it belongs only to the buyers
taxonomy), so the keyword entry for `phone` is skipped and the column
`cell_no` falls through to the fuzzy default `"email"`, not `"phone"`. -/
theorem C8_counterexample :
    best_match "cell_no" (allFields "visitors") none = "email" ∧
    ("email" : String) ≠ "phone" ∧
    ("phone" : String) ∉ allFields "visitors" := by
  exact ⟨by decide, by decide, by decide⟩

/-- Claim C8 amended: for the buyers taxonomy (where `"phone"` is a
candidate), a column named `cell_no` with no sample data maps to
`"phone"` via the keyword pass (`"cell"` is a substring of `"cellno"`),
after the fuzzy loop ends below the threshold with running best
`"email"`; content sniffing is skipped for the absent sample. -/
theorem C8_keyword_fallback :
    best_match "cell_no" (allFields "buyers") none = "phone" ∧
    keywordPass (normalize "cell_no") (allFields "buyers") = some "phone" ∧
    fuzzyPass (normalize "cell_no") (allFields "buyers") (0, 1)
      ((allFields "buyers").headD "") = Sum.inr "email" := by
  exact ⟨by decide, by decide, by decide⟩

/-- Claim C9: a column named exactly `email` maps to `email` under either
taxonomy via the fuzzy-threshold early return, whatever the sample data;
the self-similarity score is exactly 1 (the pair `(10, 10)`). -/
theorem C9_threshold_short_circuit (sample : Option Sample) :
    best_match "email" (allFields "buyers") sample = "email" ∧
    best_match "email" (allFields "visitors") sample = "email" ∧
    fuzzyPass (normalize "email") (allFields "buyers") (0, 1)
      ((allFields "buyers").headD "") = Sum.inl "email" ∧
    scoreOf (normalize "email") (normalize "email") = (10, 10) := by
  have hb : fuzzyPass (normalize "email") (allFields "buyers") (0, 1)
      ((allFields "buyers").headD "") = Sum.inl "email" := by decide
  have hv : fuzzyPass (normalize "email") (allFields "visitors") (0, 1)
      ((allFields "visitors").headD "") = Sum.inl "email" := by decide
  refine ⟨?_, ?_, hb, by decide⟩
  · simp only [best_match, hb]
  · simp only [best_match, hv]

/-- Claim C10: a column whose name normalizes to the empty string, with no
sample data, maps to the first candidate in enumeration order — `email`
for both taxonomies — since every fuzzy score is 0 and no keyword is a
substring of the empty string. -/
theorem C10_default_first_candidate (col : String) (hcol : normalize col = []) :
    best_match col (allFields "buyers") none = "email" ∧
    best_match col (allFields "visitors") none = "email" := by
  have hser : sampleCol none col = none := rfl
  constructor <;>
    · simp only [best_match, hcol, hser, Option.none_bind]
      decide

/-- Witness for C10: the column `"___"` has no alphanumeric characters. -/
theorem C10_default_first_candidate_witness :
    best_match "___" (allFields "buyers") none = "email" ∧
    best_match "___" (allFields "visitors") none = "email" :=
  C10_default_first_candidate "___" (by decide)
